import Mathlib

/-!
Verification of the client-side logic of a finance dashboard frontend.

The embedding covers:
* the Lorenz-curve derivation `lorenzData` (sort by bucket midpoint,
  cumulative count/amount walk, share divisions, (0,0)/(1,1) anchors);
* the joint refresh `refreshAll` over nine fetched datasets;
* the polling fallback `startPolling` guarded by a timer ref;
* the CSV upload handler `onUpload` guarded by the selected file.

JavaScript numbers are modelled as exact rationals; the only operation
whose IEEE behaviour matters here (division, which can hit a zero
divisor) is modelled by `jsDiv`, returning `JSNum` with explicit
non-finite values.
-/

namespace Dashboard

/-- One histogram bucket as delivered by the amount-histogram endpoint:
a numeric midpoint `mid` and a possibly missing `count`. -/
structure Bucket where
  mid : ℚ
  count : Option ℚ
deriving DecidableEq, Repr

/-- The effective count of a bucket: the source reads `d.count || 0`,
so a missing (falsy) count is treated as `0`. -/
def Bucket.cnt (b : Bucket) : ℚ :=
  b.count.getD 0

/-- A JavaScript number that may be non-finite (result of dividing by
zero): either a finite rational, an infinity, or NaN. -/
inductive JSNum where
  | fin (q : ℚ)
  | posInf
  | negInf
  | nan
deriving DecidableEq, Repr

/-- IEEE-754 division of finite operands: finite quotient when the
divisor is nonzero, otherwise `±∞` or `NaN` according to the sign of
the dividend. -/
def jsDiv (a b : ℚ) : JSNum :=
  if b ≠ 0 then .fin (a / b)
  else if 0 < a then .posInf
  else if a < 0 then .negInf
  else .nan

/-- Whether a `JSNum` is a finite number. -/
def JSNum.isFinite : JSNum → Bool
  | .fin _ => true
  | _ => false

/-- IEEE-754 `≤` comparison: any comparison with NaN is false. -/
def JSNum.jle : JSNum → JSNum → Bool
  | .nan, _ => false
  | _, .nan => false
  | .fin a, .fin b => decide (a ≤ b)
  | .negInf, _ => true
  | _, .negInf => false
  | _, .posInf => true
  | .posInf, _ => false

/-- One point of the Lorenz curve: cumulative transaction share `p`
and cumulative amount share `L`. -/
structure Pt where
  p : JSNum
  L : JSNum
deriving DecidableEq, Repr

/-- Pointwise `≤` on curve points (both coordinates). -/
def ptLE (u v : Pt) : Prop :=
  u.p.jle v.p = true ∧ u.L.jle v.L = true

instance : DecidableRel ptLE := fun u v => by
  unfold ptLE; infer_instance

/-- The sort comparator `(a, b) => a.mid - b.mid`: ascending by midpoint. -/
def bucketLE (a b : Bucket) : Prop :=
  a.mid ≤ b.mid

instance : DecidableRel bucketLE := fun a b =>
  decidable_of_iff (a.mid ≤ b.mid) Iff.rfl

instance : IsTotal Bucket bucketLE :=
  ⟨fun a b => le_total a.mid b.mid⟩

instance : IsTrans Bucket bucketLE :=
  ⟨fun _ _ _ hab hbc => le_trans hab hbc⟩

/-- `[...amountHistogram].sort((a, b) => a.mid - b.mid)`: a stable sort
ascending by midpoint. -/
def sortByMid (l : List Bucket) : List Bucket :=
  l.insertionSort bucketLE

/-- `sorted.reduce((s, d) => s + (d.count || 0), 0)`. -/
def totalCount (l : List Bucket) : ℚ :=
  l.foldl (fun s d => s + d.cnt) 0

/-- `sorted.reduce((s, d) => s + (d.mid * (d.count || 0)), 0)`. -/
def totalAmount (l : List Bucket) : ℚ :=
  l.foldl (fun s d => s + d.mid * d.cnt) 0

/-- The `sorted.map` body with the mutable accumulators `cumCount`,
`cumAmount` made explicit: emits `(cumCount / totalCount,
cumAmount / totalAmount)` per bucket. -/
def lorenzWalk (tc ta : ℚ) : ℚ → ℚ → List Bucket → List Pt
  | _, _, [] => []
  | cumCount, cumAmount, d :: rest =>
    let c := d.cnt
    let cumCount' := cumCount + c
    let cumAmount' := cumAmount + d.mid * c
    ⟨jsDiv cumCount' tc, jsDiv cumAmount' ta⟩ ::
      lorenzWalk tc ta cumCount' cumAmount' rest

/-- The Lorenz derivation `lorenzData`: empty input short-circuits to
`[]`; otherwise sort by midpoint, compute the totals, walk the
cumulative shares, and surround with the `(0,0)` and `(1,1)` anchors. -/
def lorenzData (amountHistogram : List Bucket) : List Pt :=
  if amountHistogram.length = 0 then []
  else
    let sorted := sortByMid amountHistogram
    let tc := totalCount sorted
    let ta := totalAmount sorted
    ⟨.fin 0, .fin 0⟩ :: (lorenzWalk tc ta 0 0 sorted ++ [⟨.fin 1, .fin 1⟩])

/-! ### Helper lemmas about the Lorenz derivation -/

/-- The total count as a plain sum over the list. -/
def sumCnt (l : List Bucket) : ℚ :=
  (l.map Bucket.cnt).sum

/-- The total amount as a plain sum over the list. -/
def sumAmt (l : List Bucket) : ℚ :=
  (l.map fun d => d.mid * d.cnt).sum

theorem foldl_add_eq (g : Bucket → ℚ) :
    ∀ (l : List Bucket) (s : ℚ),
      l.foldl (fun a d => a + g d) s = s + (l.map g).sum
  | [], s => by simp
  | d :: l, s => by
    simp only [List.foldl_cons, List.map_cons, List.sum_cons]
    rw [foldl_add_eq g l (s + g d), add_assoc]

theorem totalCount_eq_sumCnt (l : List Bucket) : totalCount l = sumCnt l := by
  simpa [totalCount, sumCnt] using foldl_add_eq Bucket.cnt l 0

theorem totalAmount_eq_sumAmt (l : List Bucket) : totalAmount l = sumAmt l := by
  simpa [totalAmount, sumAmt] using foldl_add_eq (fun d => d.mid * d.cnt) l 0

theorem sumCnt_perm {l₁ l₂ : List Bucket} (h : l₁.Perm l₂) :
    sumCnt l₁ = sumCnt l₂ :=
  (h.map Bucket.cnt).sum_eq

theorem sumAmt_perm {l₁ l₂ : List Bucket} (h : l₁.Perm l₂) :
    sumAmt l₁ = sumAmt l₂ := by
  simpa [sumAmt] using (h.map fun d => d.mid * d.cnt).sum_eq

theorem sortByMid_perm (l : List Bucket) : (sortByMid l).Perm l :=
  List.perm_insertionSort bucketLE l

theorem totalCount_sortByMid (l : List Bucket) :
    totalCount (sortByMid l) = totalCount l := by
  rw [totalCount_eq_sumCnt, totalCount_eq_sumCnt]
  exact sumCnt_perm (sortByMid_perm l)

theorem totalAmount_sortByMid (l : List Bucket) :
    totalAmount (sortByMid l) = totalAmount l := by
  rw [totalAmount_eq_sumAmt, totalAmount_eq_sumAmt]
  exact sumAmt_perm (sortByMid_perm l)

theorem lorenzWalk_nil (tc ta cc ca : ℚ) :
    lorenzWalk tc ta cc ca [] = [] :=
  rfl

theorem lorenzWalk_cons (tc ta cc ca : ℚ) (d : Bucket) (rest : List Bucket) :
    lorenzWalk tc ta cc ca (d :: rest) =
      ⟨jsDiv (cc + d.cnt) tc, jsDiv (ca + d.mid * d.cnt) ta⟩ ::
        lorenzWalk tc ta (cc + d.cnt) (ca + d.mid * d.cnt) rest :=
  rfl

theorem sumCnt_cons (d : Bucket) (l : List Bucket) :
    sumCnt (d :: l) = d.cnt + sumCnt l := by
  simp [sumCnt]

theorem sumAmt_cons (d : Bucket) (l : List Bucket) :
    sumAmt (d :: l) = d.mid * d.cnt + sumAmt l := by
  simp [sumAmt]

theorem lorenzWalk_length (tc ta : ℚ) :
    ∀ (l : List Bucket) (cc ca : ℚ),
      (lorenzWalk tc ta cc ca l).length = l.length
  | [], _, _ => rfl
  | d :: l, cc, ca => by
    rw [lorenzWalk_cons]
    simp [lorenzWalk_length tc ta l]

theorem lorenzWalk_append (tc ta : ℚ) :
    ∀ (l₁ l₂ : List Bucket) (cc ca : ℚ),
      lorenzWalk tc ta cc ca (l₁ ++ l₂) =
        lorenzWalk tc ta cc ca l₁ ++
          lorenzWalk tc ta (cc + sumCnt l₁) (ca + sumAmt l₁) l₂
  | [], l₂, cc, ca => by simp [lorenzWalk_nil, sumCnt, sumAmt]
  | d :: l₁, l₂, cc, ca => by
    rw [List.cons_append, lorenzWalk_cons, lorenzWalk_cons,
      lorenzWalk_append tc ta l₁ l₂]
    have h1 : cc + d.cnt + sumCnt l₁ = cc + sumCnt (d :: l₁) := by
      rw [sumCnt_cons]; ring
    have h2 : ca + d.mid * d.cnt + sumAmt l₁ = ca + sumAmt (d :: l₁) := by
      rw [sumAmt_cons]; ring
    rw [h1, h2, List.cons_append]

theorem lorenzWalk_getLast? (tc ta : ℚ) :
    ∀ (l : List Bucket) (cc ca : ℚ), l ≠ [] →
      (lorenzWalk tc ta cc ca l).getLast? =
        some ⟨jsDiv (cc + sumCnt l) tc, jsDiv (ca + sumAmt l) ta⟩
  | [], _, _, h => absurd rfl h
  | [d], cc, ca, _ => by
    rw [lorenzWalk_cons, lorenzWalk_nil, sumCnt_cons, sumAmt_cons]
    simp [sumCnt, sumAmt]
  | d :: e :: l, cc, ca, _ => by
    have ih := lorenzWalk_getLast? tc ta (e :: l) (cc + d.cnt)
      (ca + d.mid * d.cnt) (List.cons_ne_nil e l)
    rw [lorenzWalk_cons tc ta cc ca d (e :: l),
      lorenzWalk_cons tc ta (cc + d.cnt) (ca + d.mid * d.cnt) e l,
      List.getLast?_cons_cons,
      ← lorenzWalk_cons tc ta (cc + d.cnt) (ca + d.mid * d.cnt) e l, ih]
    have h1 : cc + d.cnt + sumCnt (e :: l) = cc + sumCnt (d :: e :: l) := by
      rw [sumCnt_cons d]; ring
    have h2 : ca + d.mid * d.cnt + sumAmt (e :: l)
        = ca + sumAmt (d :: e :: l) := by
      rw [sumAmt_cons d]; ring
    rw [h1, h2]

theorem jsDiv_of_ne_zero {b : ℚ} (h : b ≠ 0) (a : ℚ) :
    jsDiv a b = .fin (a / b) := by
  simp [jsDiv, h]

theorem jle_fin_of_le {a b : ℚ} (h : a ≤ b) :
    (JSNum.fin a).jle (JSNum.fin b) = true := by
  simpa [JSNum.jle] using h

theorem lorenzWalk_chain {tc ta : ℚ} (htc : 0 < tc) (hta : 0 < ta) :
    ∀ (l : List Bucket) (cc ca : ℚ),
      (∀ b ∈ l, 0 ≤ b.mid ∧ 0 ≤ b.cnt) →
      List.Chain ptLE ⟨jsDiv cc tc, jsDiv ca ta⟩ (lorenzWalk tc ta cc ca l)
  | [], _, _, _ => List.Chain.nil
  | d :: l, cc, ca, h => by
    have hd := h d (List.mem_cons_self d l)
    have hstep : ptLE ⟨jsDiv cc tc, jsDiv ca ta⟩
        ⟨jsDiv (cc + d.cnt) tc, jsDiv (ca + d.mid * d.cnt) ta⟩ := by
      rw [jsDiv_of_ne_zero htc.ne' cc, jsDiv_of_ne_zero htc.ne' (cc + d.cnt),
        jsDiv_of_ne_zero hta.ne' ca, jsDiv_of_ne_zero hta.ne' (ca + d.mid * d.cnt)]
      constructor
      · exact jle_fin_of_le <| (div_le_div_iff_of_pos_right htc).mpr <|
          le_add_of_nonneg_right hd.2
      · exact jle_fin_of_le <| (div_le_div_iff_of_pos_right hta).mpr <|
          le_add_of_nonneg_right (mul_nonneg hd.1 hd.2)
    have htail := lorenzWalk_chain htc hta l (cc + d.cnt) (ca + d.mid * d.cnt)
      fun b hb => h b (List.mem_cons_of_mem d hb)
    exact List.Chain.cons hstep htail

theorem sorted_sortByMid (l : List Bucket) :
    List.Sorted bucketLE (sortByMid l) :=
  List.sorted_insertionSort bucketLE l

/-- Two sorted bucket lists that are permutations of each other and have
pairwise-distinct midpoints are equal. -/
theorem eq_of_perm_sorted_nodupMid {l₁ : List Bucket} :
    ∀ {l₂ : List Bucket}, l₁.Perm l₂ →
      List.Sorted bucketLE l₁ → List.Sorted bucketLE l₂ →
      (l₁.map Bucket.mid).Nodup → l₁ = l₂ := by
  induction l₁ with
  | nil =>
    intro l₂ hp _ _ _
    exact hp.nil_eq
  | cons a t₁ ih =>
    intro l₂ hp hs₁ hs₂ hnd
    cases l₂ with
    | nil => exact absurd hp.symm.nil_eq (by simp)
    | cons b t₂ =>
      have hab : a = b := by
        by_contra hne
        have ha2 : a ∈ b :: t₂ := hp.mem_iff.mp (List.mem_cons_self a t₁)
        have hb1 : b ∈ a :: t₁ := hp.mem_iff.mpr (List.mem_cons_self b t₂)
        have hat2 : a ∈ t₂ := by
          rcases List.mem_cons.mp ha2 with h | h
          · exact absurd h hne
          · exact h
        have hbt1 : b ∈ t₁ := by
          rcases List.mem_cons.mp hb1 with h | h
          · exact absurd h.symm hne
          · exact h
        have h₁ : bucketLE a b := (List.sorted_cons.mp hs₁).1 b hbt1
        have h₂ : bucketLE b a := (List.sorted_cons.mp hs₂).1 a hat2
        have hmid : a.mid ∈ t₁.map Bucket.mid := by
          rw [le_antisymm h₁ h₂]
          exact List.mem_map_of_mem Bucket.mid hbt1
        exact (List.nodup_cons.mp hnd).1 hmid
      subst hab
      have := ih hp.cons_inv (List.sorted_cons.mp hs₁).2
        (List.sorted_cons.mp hs₂).2 (List.nodup_cons.mp hnd).2
      rw [this]

/-- Sorting two permutations of the same buckets gives the same list,
provided the midpoints are pairwise distinct. -/
theorem sortByMid_eq_of_perm {l₁ l₂ : List Bucket} (hp : l₁.Perm l₂)
    (hnd : (l₁.map Bucket.mid).Nodup) :
    sortByMid l₁ = sortByMid l₂ := by
  apply eq_of_perm_sorted_nodupMid
  · exact (sortByMid_perm l₁).trans (hp.trans (sortByMid_perm l₂).symm)
  · exact sorted_sortByMid l₁
  · exact sorted_sortByMid l₂
  · exact (((sortByMid_perm l₁).map Bucket.mid).nodup_iff).mpr hnd

/-! ### Claim theorems: the Lorenz derivation -/

/-- Claim C1, counterexample: on the histogram
`[{mid:10,count:2},{mid:30,count:2}]` the totals are 4 and 80 as the
claim states, but the curve is not
`[(0,0), (0.5, 0.125), (1,1), (1,1)]`: the first walked point's `L`
coordinate is `(10·2)/80 = 1/4`, not `10/80 = 1/8`. -/
theorem lorenz_scenario_cex :
    totalCount [⟨10, some 2⟩, ⟨30, some 2⟩] = 4 ∧
    totalAmount [⟨10, some 2⟩, ⟨30, some 2⟩] = 80 ∧
    lorenzData [⟨10, some 2⟩, ⟨30, some 2⟩] ≠
      [⟨.fin 0, .fin 0⟩, ⟨.fin (1/2), .fin (1/8)⟩,
       ⟨.fin 1, .fin 1⟩, ⟨.fin 1, .fin 1⟩] := by
  refine ⟨by norm_num [totalCount, Bucket.cnt],
    by norm_num [totalAmount, Bucket.cnt], ?_⟩
  have h : lorenzData [⟨10, some 2⟩, ⟨30, some 2⟩] =
      [⟨.fin 0, .fin 0⟩, ⟨.fin (1/2), .fin (1/4)⟩,
       ⟨.fin 1, .fin 1⟩, ⟨.fin 1, .fin 1⟩] := by
    norm_num [lorenzData, sortByMid, totalCount, totalAmount, lorenzWalk,
      Bucket.cnt, bucketLE, jsDiv, List.insertionSort, List.orderedInsert]
  rw [h]
  simp only [ne_eq, List.cons.injEq, Pt.mk.injEq, JSNum.fin.injEq]
  norm_num

/-- Claim C1, amended: for the histogram
`[{mid:10,count:2},{mid:30,count:2}]` the derivation computes total
count 4 and total amount 80, and the points between the anchors are
`(0.5, 0.25)` followed by `(1, 1)`. -/
theorem lorenz_scenario_amended :
    totalCount [⟨10, some 2⟩, ⟨30, some 2⟩] = 4 ∧
    totalAmount [⟨10, some 2⟩, ⟨30, some 2⟩] = 80 ∧
    lorenzData [⟨10, some 2⟩, ⟨30, some 2⟩] =
      [⟨.fin 0, .fin 0⟩, ⟨.fin (1/2), .fin (1/4)⟩,
       ⟨.fin 1, .fin 1⟩, ⟨.fin 1, .fin 1⟩] := by
  refine ⟨by norm_num [totalCount, Bucket.cnt],
    by norm_num [totalAmount, Bucket.cnt], ?_⟩
  norm_num [lorenzData, sortByMid, totalCount, totalAmount, lorenzWalk,
    Bucket.cnt, bucketLE, jsDiv, List.insertionSort, List.orderedInsert]

/-- Claim C3, counterexample: permutation invariance fails when two
buckets share a midpoint — the sort is stable, so the cumulative walk
visits equal-midpoint buckets in input order, and the interior curve
points differ. -/
theorem lorenzData_perm_cex :
    ([⟨1, some 2⟩, ⟨1, some 1⟩] : List Bucket).Perm
      [⟨1, some 1⟩, ⟨1, some 2⟩] ∧
    lorenzData [⟨1, some 2⟩, ⟨1, some 1⟩] ≠
      lorenzData [⟨1, some 1⟩, ⟨1, some 2⟩] := by
  constructor
  · exact List.Perm.swap _ _ _
  · have hA : lorenzData [⟨1, some 2⟩, ⟨1, some 1⟩] =
        [⟨.fin 0, .fin 0⟩, ⟨.fin (2/3), .fin (2/3)⟩,
         ⟨.fin 1, .fin 1⟩, ⟨.fin 1, .fin 1⟩] := by
      norm_num [lorenzData, sortByMid, totalCount, totalAmount, lorenzWalk,
        Bucket.cnt, bucketLE, jsDiv, List.insertionSort, List.orderedInsert]
    have hB : lorenzData [⟨1, some 1⟩, ⟨1, some 2⟩] =
        [⟨.fin 0, .fin 0⟩, ⟨.fin (1/3), .fin (1/3)⟩,
         ⟨.fin 1, .fin 1⟩, ⟨.fin 1, .fin 1⟩] := by
      norm_num [lorenzData, sortByMid, totalCount, totalAmount, lorenzWalk,
        Bucket.cnt, bucketLE, jsDiv, List.insertionSort, List.orderedInsert]
    rw [hA, hB]
    simp only [ne_eq, List.cons.injEq, Pt.mk.injEq, JSNum.fin.injEq]
    norm_num

/-- Claim C3, amended: for every histogram whose midpoints are pairwise
distinct, applying the Lorenz derivation to any permutation of its
buckets produces the same curve. -/
theorem lorenzData_perm (h₁ h₂ : List Bucket) (hp : h₁.Perm h₂)
    (hnd : (h₁.map Bucket.mid).Nodup) :
    lorenzData h₁ = lorenzData h₂ := by
  unfold lorenzData
  rw [sortByMid_eq_of_perm hp hnd, hp.length_eq]

/-- Claim C3, witness: two concrete permutations of a distinct-midpoint
histogram give the same curve. -/
theorem lorenzData_perm_witness :
    lorenzData [⟨2, some 5⟩, ⟨1, some 7⟩] =
      lorenzData [⟨1, some 7⟩, ⟨2, some 5⟩] :=
  lorenzData_perm _ _ (List.Perm.swap _ _ _) (by norm_num)

/-- Claim C4: the derivation divides by the totals without a zero
guard — on the all-zero histogram `[{mid:0,count:0}]` both totals are
zero, the division-by-zero branch is reached, and the output contains
non-finite (NaN) coordinates. -/
theorem lorenzData_divzero_unguarded :
    ∃ hist : List Bucket, hist ≠ [] ∧
      (totalCount hist = 0 ∨ totalAmount hist = 0) ∧
      ∃ pt ∈ lorenzData hist,
        pt.p.isFinite = false ∨ pt.L.isFinite = false := by
  refine ⟨[⟨0, some 0⟩], by simp,
    Or.inl (by norm_num [totalCount, Bucket.cnt]), ⟨.nan, .nan⟩, ?_, ?_⟩
  · have h : lorenzData [⟨0, some 0⟩] =
        [⟨.fin 0, .fin 0⟩, ⟨.nan, .nan⟩, ⟨.fin 1, .fin 1⟩] := by
      norm_num [lorenzData, sortByMid, totalCount, totalAmount, lorenzWalk,
        Bucket.cnt, bucketLE, jsDiv, List.insertionSort, List.orderedInsert]
    rw [h]
    simp
  · simp [JSNum.isFinite]

/-- Claim C5: the empty histogram short-circuits to the empty curve —
no anchor points are added. -/
theorem lorenzData_empty : lorenzData [] = [] :=
  rfl

theorem getLast?_cons_of_ne_nil {α : Type _} {l : List α} (a : α)
    (h : l ≠ []) : (a :: l).getLast? = l.getLast? := by
  cases l with
  | nil => exact absurd rfl h
  | cons b t => exact List.getLast?_cons_cons

/-- Claim C2, counterexample: the claim quantifies over every non-empty
histogram with positive totals, but a bucket with a negative midpoint
(or a negative count) makes a cumulative share dip below zero: on
`[{mid:-1,count:1},{mid:3,count:1}]` both totals are `2 > 0`, yet the
`L` coordinate goes `0, -1/2, 1, 1`; on
`[{mid:1,count:-1},{mid:1,count:3}]` both totals are `2 > 0`, yet both
coordinates go `0, -1/2, 1, 1` — neither curve is non-decreasing. -/
theorem lorenzData_shape_cex :
    (([⟨-1, some 1⟩, ⟨3, some 1⟩] : List Bucket) ≠ [] ∧
     0 < totalCount [⟨-1, some 1⟩, ⟨3, some 1⟩] ∧
     0 < totalAmount [⟨-1, some 1⟩, ⟨3, some 1⟩] ∧
     ¬ List.Chain' ptLE (lorenzData [⟨-1, some 1⟩, ⟨3, some 1⟩])) ∧
    (([⟨1, some (-1)⟩, ⟨1, some 3⟩] : List Bucket) ≠ [] ∧
     0 < totalCount [⟨1, some (-1)⟩, ⟨1, some 3⟩] ∧
     0 < totalAmount [⟨1, some (-1)⟩, ⟨1, some 3⟩] ∧
     ¬ List.Chain' ptLE (lorenzData [⟨1, some (-1)⟩, ⟨1, some 3⟩])) := by
  constructor
  · refine ⟨by simp, by norm_num [totalCount, Bucket.cnt],
      by norm_num [totalAmount, Bucket.cnt], ?_⟩
    have h : lorenzData [⟨-1, some 1⟩, ⟨3, some 1⟩] =
        [⟨.fin 0, .fin 0⟩, ⟨.fin (1/2), .fin (-(1/2))⟩,
         ⟨.fin 1, .fin 1⟩, ⟨.fin 1, .fin 1⟩] := by
      norm_num [lorenzData, sortByMid, totalCount, totalAmount, lorenzWalk,
        Bucket.cnt, bucketLE, jsDiv, List.insertionSort, List.orderedInsert]
    rw [h]
    simp only [List.chain'_cons, ptLE, JSNum.jle, decide_eq_true_eq]
    norm_num
  · refine ⟨by simp, by norm_num [totalCount, Bucket.cnt],
      by norm_num [totalAmount, Bucket.cnt], ?_⟩
    have h : lorenzData [⟨1, some (-1)⟩, ⟨1, some 3⟩] =
        [⟨.fin 0, .fin 0⟩, ⟨.fin (-(1/2)), .fin (-(1/2))⟩,
         ⟨.fin 1, .fin 1⟩, ⟨.fin 1, .fin 1⟩] := by
      norm_num [lorenzData, sortByMid, totalCount, totalAmount, lorenzWalk,
        Bucket.cnt, bucketLE, jsDiv, List.insertionSort, List.orderedInsert]
    rw [h]
    simp only [List.chain'_cons, ptLE, JSNum.jle, decide_eq_true_eq]
    norm_num

/-- Claim C2, amended: for every non-empty histogram whose bucket
midpoints and counts are all nonnegative and whose total count and
total amount are positive, the curve is monotonically non-decreasing in
both coordinates, starts at `(0,0)`, ends at `(1,1)`, and has length
input length + 2. -/
theorem lorenzData_shape (hist : List Bucket)
    (hne : hist ≠ [])
    (hnn : ∀ b ∈ hist, 0 ≤ b.mid ∧ 0 ≤ b.cnt)
    (htc : 0 < totalCount hist) (hta : 0 < totalAmount hist) :
    List.Chain' ptLE (lorenzData hist) ∧
    (lorenzData hist).head? = some ⟨JSNum.fin 0, JSNum.fin 0⟩ ∧
    (lorenzData hist).getLast? = some ⟨JSNum.fin 1, JSNum.fin 1⟩ ∧
    (lorenzData hist).length = hist.length + 2 := by
  have hlen : ¬ hist.length = 0 := by simpa [List.length_eq_zero] using hne
  have hsper : (sortByMid hist).Perm hist := sortByMid_perm hist
  have htcpos : 0 < totalCount (sortByMid hist) := by rwa [totalCount_sortByMid]
  have htapos : 0 < totalAmount (sortByMid hist) := by rwa [totalAmount_sortByMid]
  have hnns : ∀ b ∈ sortByMid hist, 0 ≤ b.mid ∧ 0 ≤ b.cnt :=
    fun b hb => hnn b (hsper.subset hb)
  have hsne : sortByMid hist ≠ [] := by
    intro h
    apply hne
    have hl := hsper.length_eq
    rw [h] at hl
    simpa [List.length_eq_zero] using hl.symm
  have hld : lorenzData hist =
      ⟨JSNum.fin 0, JSNum.fin 0⟩ ::
        (lorenzWalk (totalCount (sortByMid hist)) (totalAmount (sortByMid hist))
            0 0 (sortByMid hist) ++ [⟨JSNum.fin 1, JSNum.fin 1⟩]) := by
    simp only [lorenzData, if_neg hlen]
  set tc := totalCount (sortByMid hist) with htcdef
  set ta := totalAmount (sortByMid hist) with htadef
  set w := lorenzWalk tc ta 0 0 (sortByMid hist) with hwdef
  have hwlast : w.getLast? = some ⟨JSNum.fin 1, JSNum.fin 1⟩ := by
    rw [hwdef, lorenzWalk_getLast? tc ta (sortByMid hist) 0 0 hsne,
      zero_add, zero_add, ← totalCount_eq_sumCnt, ← totalAmount_eq_sumAmt,
      ← htcdef, ← htadef, jsDiv_of_ne_zero htcpos.ne', jsDiv_of_ne_zero htapos.ne',
      div_self htcpos.ne', div_self htapos.ne']
  have hwne : w ≠ [] := by
    intro h
    have hl := lorenzWalk_length tc ta (sortByMid hist) 0 0
    rw [← hwdef, h] at hl
    exact hsne (List.length_eq_zero.mp hl.symm)
  refine ⟨?_, ?_, ?_, ?_⟩
  · rw [hld, ← List.cons_append]
    apply List.chain'_append.mpr
    refine ⟨?_, List.chain'_singleton _, ?_⟩
    · have h0c : (⟨JSNum.fin 0, JSNum.fin 0⟩ : Pt) = ⟨jsDiv 0 tc, jsDiv 0 ta⟩ := by
        rw [jsDiv_of_ne_zero htcpos.ne', jsDiv_of_ne_zero htapos.ne',
          zero_div, zero_div]
      rw [h0c, hwdef]
      exact lorenzWalk_chain htcpos htapos (sortByMid hist) 0 0 hnns
    · intro x hx y hy
      rw [getLast?_cons_of_ne_nil _ hwne, hwlast] at hx
      simp only [Option.mem_some_iff] at hx
      simp only [List.head?_cons, Option.mem_some_iff] at hy
      subst hx
      subst hy
      exact ⟨jle_fin_of_le le_rfl, jle_fin_of_le le_rfl⟩
  · rw [hld]
    rfl
  · rw [hld, ← List.cons_append, List.getLast?_append_cons]
    rfl
  · rw [hld]
    have hwl : w.length = hist.length := by
      rw [hwdef]
      rw [lorenzWalk_length tc ta (sortByMid hist) 0 0]
      exact hsper.length_eq
    simp [hwl]

/-- Claim C2, witness: the amended shape theorem applied to the
concrete histogram `[{mid:1,count:1},{mid:2,count:1}]`. -/
theorem lorenzData_shape_witness :
    (([⟨1, some 1⟩, ⟨2, some 1⟩] : List Bucket) ≠ []) ∧
    0 < totalCount [⟨1, some 1⟩, ⟨2, some 1⟩] ∧
    0 < totalAmount [⟨1, some 1⟩, ⟨2, some 1⟩] ∧
    (List.Chain' ptLE (lorenzData [⟨1, some 1⟩, ⟨2, some 1⟩]) ∧
     (lorenzData [⟨1, some 1⟩, ⟨2, some 1⟩]).head? =
       some ⟨JSNum.fin 0, JSNum.fin 0⟩ ∧
     (lorenzData [⟨1, some 1⟩, ⟨2, some 1⟩]).getLast? =
       some ⟨JSNum.fin 1, JSNum.fin 1⟩ ∧
     (lorenzData [⟨1, some 1⟩, ⟨2, some 1⟩]).length = 4) := by
  refine ⟨by simp, by norm_num [totalCount, Bucket.cnt],
    by norm_num [totalAmount, Bucket.cnt], ?_⟩
  exact lorenzData_shape [⟨1, some 1⟩, ⟨2, some 1⟩] (by simp)
    (by
      intro b hb
      simp only [List.mem_cons, List.not_mem_nil, or_false] at hb
      rcases hb with rfl | rfl
      · exact ⟨by norm_num, by norm_num [Bucket.cnt]⟩
      · exact ⟨by norm_num, by norm_num [Bucket.cnt]⟩)
    (by norm_num [totalCount, Bucket.cnt])
    (by norm_num [totalAmount, Bucket.cnt])

/-- Claim C9: when both totals are nonzero, the final walked point is
already exactly `(1,1)` (the running sums reach the totals at the last
bucket), so the output ends with two copies of `(1,1)` — the appended
anchor duplicates the last computed point. -/
theorem lorenzData_last_two (hist : List Bucket) (hne : hist ≠ [])
    (htc : totalCount hist ≠ 0) (hta : totalAmount hist ≠ 0) :
    (lorenzWalk (totalCount (sortByMid hist)) (totalAmount (sortByMid hist))
        0 0 (sortByMid hist)).getLast? = some ⟨JSNum.fin 1, JSNum.fin 1⟩ ∧
    ∃ pre, lorenzData hist =
      pre ++ [⟨JSNum.fin 1, JSNum.fin 1⟩, ⟨JSNum.fin 1, JSNum.fin 1⟩] := by
  have hlen : ¬ hist.length = 0 := by simpa [List.length_eq_zero] using hne
  have hsne : sortByMid hist ≠ [] := by
    intro h
    apply hne
    have hl := (sortByMid_perm hist).length_eq
    rw [h] at hl
    simpa [List.length_eq_zero] using hl.symm
  have htc' : totalCount (sortByMid hist) ≠ 0 := by rwa [totalCount_sortByMid]
  have hta' : totalAmount (sortByMid hist) ≠ 0 := by rwa [totalAmount_sortByMid]
  set tc := totalCount (sortByMid hist) with htcdef
  set ta := totalAmount (sortByMid hist) with htadef
  set w := lorenzWalk tc ta 0 0 (sortByMid hist) with hwdef
  have hwlast : w.getLast? = some ⟨JSNum.fin 1, JSNum.fin 1⟩ := by
    rw [hwdef, lorenzWalk_getLast? tc ta (sortByMid hist) 0 0 hsne,
      zero_add, zero_add, ← totalCount_eq_sumCnt, ← totalAmount_eq_sumAmt,
      ← htcdef, ← htadef, jsDiv_of_ne_zero htc', jsDiv_of_ne_zero hta',
      div_self htc', div_self hta']
  refine ⟨hwlast, ⟨JSNum.fin 0, JSNum.fin 0⟩ :: w.dropLast, ?_⟩
  have hw : w.dropLast ++ [(⟨JSNum.fin 1, JSNum.fin 1⟩ : Pt)] = w :=
    List.dropLast_append_getLast? _ hwlast
  have hld : lorenzData hist =
      ⟨JSNum.fin 0, JSNum.fin 0⟩ :: (w ++ [⟨JSNum.fin 1, JSNum.fin 1⟩]) := by
    simp only [lorenzData, if_neg hlen]
  rw [hld, ← hw]
  simp

/-- Claim C9, witness: applied to the single-bucket histogram
`[{mid:4,count:1}]`. -/
theorem lorenzData_last_two_witness :
    (lorenzWalk (totalCount (sortByMid [⟨4, some 1⟩]))
        (totalAmount (sortByMid [⟨4, some 1⟩])) 0 0
        (sortByMid [⟨4, some 1⟩])).getLast? =
      some ⟨JSNum.fin 1, JSNum.fin 1⟩ ∧
    ∃ pre, lorenzData [⟨4, some 1⟩] =
      pre ++ [⟨JSNum.fin 1, JSNum.fin 1⟩, ⟨JSNum.fin 1, JSNum.fin 1⟩] :=
  lorenzData_last_two [⟨4, some 1⟩] (by simp)
    (by norm_num [totalCount, Bucket.cnt])
    (by norm_num [totalAmount, Bucket.cnt])

/-- Claim C10: a bucket whose count is missing or otherwise falsy is
treated as count `0` everywhere in the derivation — it contributes
nothing to either total, and the point the walk emits for it shows the
unchanged running shares: the previous emitted point, or
`(0/totalCount, 0/totalAmount)` when it comes first. -/
theorem lorenz_falsy_count (tc ta : ℚ) (l₁ l₂ : List Bucket) (b : Bucket)
    (hb : b.cnt = 0) :
    totalCount (l₁ ++ b :: l₂) = totalCount (l₁ ++ l₂) ∧
    totalAmount (l₁ ++ b :: l₂) = totalAmount (l₁ ++ l₂) ∧
    (lorenzWalk tc ta 0 0 (l₁ ++ b :: l₂))[l₁.length]? =
      some (((lorenzWalk tc ta 0 0 l₁).getLast?).getD
        ⟨jsDiv 0 tc, jsDiv 0 ta⟩) := by
  refine ⟨?_, ?_, ?_⟩
  · rw [totalCount_eq_sumCnt, totalCount_eq_sumCnt]
    simp [sumCnt, hb]
  · rw [totalAmount_eq_sumAmt, totalAmount_eq_sumAmt]
    simp [sumAmt, hb]
  · have hlw : (lorenzWalk tc ta 0 0 l₁).length = l₁.length :=
      lorenzWalk_length tc ta l₁ 0 0
    rw [lorenzWalk_append tc ta l₁ (b :: l₂) 0 0, lorenzWalk_cons,
      List.getElem?_append_right (le_of_eq hlw), hlw, Nat.sub_self]
    simp only [List.getElem?_cons_zero, hb, mul_zero, add_zero, zero_add]
    cases hl : l₁ with
    | nil =>
      subst hl
      simp [lorenzWalk_nil, sumCnt, sumAmt]
    | cons d t =>
      rw [← hl, lorenzWalk_getLast? tc ta l₁ 0 0 (by rw [hl]; simp),
        zero_add, zero_add]
      rfl

/-- Claim C10, witness: a missing-count bucket placed after one real
bucket leaves the totals alone and repeats the previous point. -/
theorem lorenz_falsy_count_witness :
    Bucket.cnt ⟨5, none⟩ = 0 ∧
    (totalCount ([⟨1, some 1⟩] ++ (⟨5, none⟩ : Bucket) :: []) =
        totalCount ([⟨1, some 1⟩] ++ []) ∧
      totalAmount ([⟨1, some 1⟩] ++ (⟨5, none⟩ : Bucket) :: []) =
        totalAmount ([⟨1, some 1⟩] ++ []) ∧
      (lorenzWalk 1 1 0 0
          ([⟨1, some 1⟩] ++ (⟨5, none⟩ : Bucket) :: []))[
          ([(⟨1, some 1⟩ : Bucket)].length)]? =
        some (((lorenzWalk 1 1 0 0 [⟨1, some 1⟩]).getLast?).getD
          ⟨jsDiv 0 1, jsDiv 0 1⟩)) :=
  ⟨rfl, lorenz_falsy_count 1 1 [⟨1, some 1⟩] [] ⟨5, none⟩ rfl⟩

/-! ### The dashboard view: refresh, polling fallback, upload -/

/-- A failed fetch (network failure or non-2xx response) carries an
error value; its contents are irrelevant to the view. -/
abbrev Err := String

/-- `GET /summary` response shape. -/
structure Summary where
  total_transactions : ℕ
  total_amount : ℚ
  fraud_cases : ℕ
  unique_customers : ℕ
deriving DecidableEq, Repr

/-- One row of `GET /category-spend`. -/
structure CategorySpendRow where
  category : String
  amount : ℚ
deriving DecidableEq, Repr

/-- One row of `GET /fraud-trend`. -/
structure FraudTrendRow where
  step : ℤ
  fraud : ℕ
deriving DecidableEq, Repr

/-- One transaction row of the recent-transactions table. -/
structure TxRow where
  step : ℤ
  customer : String
  gender : String
  merchant : String
  category : String
  amount : ℚ
  fraud : ℕ
deriving DecidableEq, Repr

/-- `GET /transactions` response: total row count plus one page. -/
structure TablePage where
  count : ℕ
  items : List TxRow
deriving DecidableEq, Repr

/-- One row of `GET /amount-by-gender`. -/
structure GenderAmountRow where
  gender : String
  amount : ℚ
deriving DecidableEq, Repr

/-- One row of `GET /fraud-by-category`. -/
structure FraudByCategoryRow where
  category : String
  fraud_rate : ℚ
deriving DecidableEq, Repr

/-- One row of `GET /avg-amount-by-category`. -/
structure AvgAmountRow where
  category : String
  avg_amount : ℚ
deriving DecidableEq, Repr

/-- One row of `GET /top-merchants`. -/
structure MerchantRow where
  merchant : String
  amount : ℚ
deriving DecidableEq, Repr

/-- A file selected in the upload control (opaque contents). -/
structure UFile where
  name : String
deriving DecidableEq, Repr

/-- The add-transaction form draft, mirroring its initial object. -/
structure NewTx where
  step : ℚ
  customer : String
  age : String
  gender : String
  zipcodeori : String
  merchant : String
  zipmerchant : String
  category : String
  amount : ℚ
  fraud : ℚ
deriving DecidableEq, Repr

/-- The view's local state: the nine fetched datasets plus the two
form states (`file`, `newTx`). -/
structure DashState where
  summary : Option Summary
  categorySpend : List CategorySpendRow
  fraudTrend : List FraudTrendRow
  table : TablePage
  file : Option UFile
  newTx : NewTx
  amountByGender : List GenderAmountRow
  fraudByCategory : List FraudByCategoryRow
  avgAmountByCategory : List AvgAmountRow
  topMerchants : List MerchantRow
  amountHistogram : List Bucket
deriving DecidableEq, Repr

/-- The outcomes of the nine concurrent fetches issued by one refresh
cycle, in the order they are destructured from `Promise.all`. -/
structure FetchResults where
  s : Except Err Summary
  c : Except Err (List CategorySpendRow)
  f : Except Err (List FraudTrendRow)
  t : Except Err TablePage
  gAmt : Except Err (List GenderAmountRow)
  fCat : Except Err (List FraudByCategoryRow)
  aAvg : Except Err (List AvgAmountRow)
  mTop : Except Err (List MerchantRow)
  hist : Except Err (List Bucket)

/-- `refreshAll`: await all nine fetches jointly, then replace every
dataset in state. A rejection of any fetch rejects the whole refresh
before any setter runs, so the state is left untouched. -/
def refreshAll (st : DashState) (r : FetchResults) : Except Err DashState := do
  let s ← r.s
  let c ← r.c
  let f ← r.f
  let t ← r.t
  let gAmt ← r.gAmt
  let fCat ← r.fCat
  let aAvg ← r.aAvg
  let mTop ← r.mTop
  let hist ← r.hist
  return { st with
    summary := some s, categorySpend := c, fraudTrend := f, table := t,
    amountByGender := gAmt, fraudByCategory := fCat,
    avgAmountByCategory := aAvg, topMerchants := mTop,
    amountHistogram := hist }

/-- The action an interval timer runs. -/
inductive TimerAction where
  | refreshAllAction
deriving DecidableEq, Repr

/-- One `setInterval` timer: its period in milliseconds and action. -/
structure Timer where
  period : ℕ
  action : TimerAction
deriving DecidableEq, Repr

/-- The per-mount polling state: `pollRef` mirrors the `useRef` holding
the interval id; `timers` records every interval timer created during
the mount, in creation order. -/
structure PollState where
  pollRef : Option ℕ
  timers : List Timer
deriving DecidableEq, Repr

/-- `startPolling`: returns immediately when `pollRef.current` is
already set; otherwise stores `setInterval(refreshAll, 5000)` in the
ref. -/
def startPolling (st : PollState) : PollState :=
  if st.pollRef.isSome then st
  else { pollRef := some st.timers.length,
         timers := st.timers ++ [⟨5000, .refreshAllAction⟩] }

/-- Events delivered by the push channel after mount. -/
inductive WsEvent where
  | message
  | error
  | closed
deriving DecidableEq, Repr

/-- The mounted handlers: `onmessage` re-fetches (timer state is
unchanged), `onerror` and `onclose` both call `startPolling`. -/
def handleWsEvent (st : PollState) : WsEvent → PollState
  | .message => st
  | .error => startPolling st
  | .closed => startPolling st

/-- Mount-time polling state: no timer armed, none created. -/
def initPollState : PollState :=
  ⟨none, []⟩

/-- Run a sequence of push-channel events. -/
def runEvents (st : PollState) (evs : List WsEvent) : PollState :=
  evs.foldl handleWsEvent st

/-- A network request issued by the upload handler. -/
inductive Request where
  | uploadCSVReq (f : UFile)
  | refreshReq
deriving DecidableEq, Repr

/-- `onUpload`: returns before doing anything when no file is chosen;
otherwise posts the CSV, clears the file state, and runs a full
refresh. The second component lists the requests issued. -/
def onUpload (st : DashState) (up : Except Err Unit) (r : FetchResults) :
    DashState × List Request :=
  match st.file with
  | none => (st, [])
  | some f =>
    match up with
    | .error _ => (st, [Request.uploadCSVReq f])
    | .ok _ =>
      let st1 := { st with file := none }
      match refreshAll st1 r with
      | .ok st2 => (st2, [Request.uploadCSVReq f, Request.refreshReq])
      | .error _ => (st1, [Request.uploadCSVReq f, Request.refreshReq])

/-- `disabled={!file}` on the upload control. -/
def uploadDisabled (st : DashState) : Bool :=
  st.file.isNone

/-! ### Helper lemmas about the polling fallback -/

/-- Invariant of every reachable polling state: at most one timer was
ever created, every created timer is the 5000 ms refresh timer, and the
ref is set exactly when a timer was created. -/
def PollInv (st : PollState) : Prop :=
  st.timers.length ≤ 1 ∧
  (∀ t ∈ st.timers,
    t.period = 5000 ∧ t.action = TimerAction.refreshAllAction) ∧
  (st.pollRef.isSome = true ↔ st.timers.length = 1)

theorem startPolling_of_armed {st : PollState}
    (h : st.pollRef.isSome = true) : startPolling st = st := by
  simp [startPolling, h]

theorem startPolling_armed (st : PollState) :
    (startPolling st).pollRef.isSome = true := by
  by_cases h : st.pollRef.isSome = true
  · rw [startPolling_of_armed h]
    exact h
  · simp [startPolling, h]

theorem handleWsEvent_of_armed {st : PollState}
    (h : st.pollRef.isSome = true) (e : WsEvent) : handleWsEvent st e = st := by
  cases e <;> simp [handleWsEvent, startPolling_of_armed h]

theorem runEvents_of_armed {st : PollState} (h : st.pollRef.isSome = true) :
    ∀ evs : List WsEvent, runEvents st evs = st
  | [] => rfl
  | e :: evs => by
    show runEvents (handleWsEvent st e) evs = st
    rw [handleWsEvent_of_armed h e]
    exact runEvents_of_armed h evs

theorem startPolling_inv {st : PollState} (h : PollInv st) :
    PollInv (startPolling st) := by
  by_cases ha : st.pollRef.isSome = true
  · rwa [startPolling_of_armed ha]
  · obtain ⟨h1, h2, h3⟩ := h
    have hl : st.timers.length = 0 := by
      rcases Nat.le_one_iff_eq_zero_or_eq_one.mp h1 with h0 | h0
      · exact h0
      · exact absurd (h3.mpr h0) ha
    refine ⟨?_, ?_, ?_⟩
    · simp [startPolling, ha, hl]
    · intro t ht
      simp only [startPolling, ha, Bool.false_eq_true, if_false,
        List.mem_append, List.mem_singleton] at ht
      rcases ht with ht | rfl
      · exact h2 t ht
      · exact ⟨rfl, rfl⟩
    · simp [startPolling, ha, hl]

theorem handleWsEvent_inv {st : PollState} (h : PollInv st) (e : WsEvent) :
    PollInv (handleWsEvent st e) := by
  cases e
  · exact h
  · exact startPolling_inv h
  · exact startPolling_inv h

theorem runEvents_inv :
    ∀ (evs : List WsEvent) (st : PollState), PollInv st →
      PollInv (runEvents st evs)
  | [], _, h => h
  | e :: evs, st, h =>
    runEvents_inv evs (handleWsEvent st e) (handleWsEvent_inv h e)

theorem initPollState_inv : PollInv initPollState := by
  refine ⟨by simp [initPollState], by simp [initPollState], by simp [initPollState]⟩

theorem runEvents_armed_of_mem :
    ∀ (evs : List WsEvent) (st : PollState),
      (∃ e ∈ evs, e = WsEvent.error ∨ e = WsEvent.closed) →
      (runEvents st evs).pollRef.isSome = true
  | [], _, h => by simp at h
  | e :: evs, st, h => by
    show (runEvents (handleWsEvent st e) evs).pollRef.isSome = true
    obtain ⟨x, hx, hxor⟩ := h
    rcases List.mem_cons.mp hx with rfl | hxt
    · have harm : (handleWsEvent st x).pollRef.isSome = true := by
        rcases hxor with rfl | rfl
        · exact startPolling_armed st
        · exact startPolling_armed st
      rw [runEvents_of_armed harm evs]
      exact harm
    · exact runEvents_armed_of_mem evs (handleWsEvent st e) ⟨x, hxt, hxor⟩

/-! ### Claim theorems: refresh, polling, upload -/

/-- Claim C6: a refresh is all-or-nothing over its nine jointly awaited
fetches — if any of the nine outcomes is an error the whole refresh
rejects and produces no new state, and when all nine succeed every one
of the nine datasets is replaced by its fetched value while the form
state is untouched. -/
theorem refreshAll_atomic (st : DashState) (r : FetchResults) :
    (((∃ e, r.s = .error e) ∨ (∃ e, r.c = .error e) ∨ (∃ e, r.f = .error e) ∨
      (∃ e, r.t = .error e) ∨ (∃ e, r.gAmt = .error e) ∨
      (∃ e, r.fCat = .error e) ∨ (∃ e, r.aAvg = .error e) ∨
      (∃ e, r.mTop = .error e) ∨ (∃ e, r.hist = .error e)) →
      ∃ e, refreshAll st r = .error e) ∧
    (∀ s c f t gAmt fCat aAvg mTop hist,
      r.s = .ok s → r.c = .ok c → r.f = .ok f → r.t = .ok t →
      r.gAmt = .ok gAmt → r.fCat = .ok fCat → r.aAvg = .ok aAvg →
      r.mTop = .ok mTop → r.hist = .ok hist →
      refreshAll st r = .ok { st with
        summary := some s, categorySpend := c, fraudTrend := f, table := t,
        amountByGender := gAmt, fraudByCategory := fCat,
        avgAmountByCategory := aAvg, topMerchants := mTop,
        amountHistogram := hist }) := by
  obtain ⟨s, c, f, t, gAmt, fCat, aAvg, mTop, hist⟩ := r
  constructor
  · intro hdisj
    dsimp only at hdisj ⊢
    cases s with
    | error e => exact ⟨e, rfl⟩
    | ok sv =>
    cases c with
    | error e => exact ⟨e, rfl⟩
    | ok cv =>
    cases f with
    | error e => exact ⟨e, rfl⟩
    | ok fv =>
    cases t with
    | error e => exact ⟨e, rfl⟩
    | ok tv =>
    cases gAmt with
    | error e => exact ⟨e, rfl⟩
    | ok gv =>
    cases fCat with
    | error e => exact ⟨e, rfl⟩
    | ok fcv =>
    cases aAvg with
    | error e => exact ⟨e, rfl⟩
    | ok av =>
    cases mTop with
    | error e => exact ⟨e, rfl⟩
    | ok mv =>
    cases hist with
    | error e => exact ⟨e, rfl⟩
    | ok hv =>
      rcases hdisj with ⟨e, he⟩ | ⟨e, he⟩ | ⟨e, he⟩ | ⟨e, he⟩ | ⟨e, he⟩ |
        ⟨e, he⟩ | ⟨e, he⟩ | ⟨e, he⟩ | ⟨e, he⟩ <;>
        exact Except.noConfusion he
  · intro s' c' f' t' g' fc' aa' mt' h' hs hc hf ht hg hfc haa hmt hh
    dsimp only at hs hc hf ht hg hfc haa hmt hh
    subst hs
    subst hc
    subst hf
    subst ht
    subst hg
    subst hfc
    subst haa
    subst hmt
    subst hh
    rfl

/-- The mount-time view state: all datasets empty, no file chosen, the
draft form at its initial values. -/
def st0 : DashState :=
  { summary := none, categorySpend := [], fraudTrend := [],
    table := ⟨0, []⟩, file := none,
    newTx := ⟨0, "", "unknown", "unknown", "", "", "", "", 0, 0⟩,
    amountByGender := [], fraudByCategory := [], avgAmountByCategory := [],
    topMerchants := [], amountHistogram := [] }

/-- A concrete summary value used by the witnesses. -/
def summary0 : Summary :=
  ⟨3, 250, 1, 2⟩

/-- Nine successful fetch outcomes. -/
def rGood : FetchResults :=
  { s := .ok summary0, c := .ok [], f := .ok [], t := .ok ⟨0, []⟩,
    gAmt := .ok [], fCat := .ok [], aAvg := .ok [], mTop := .ok [],
    hist := .ok [⟨10, some 2⟩] }

/-- The same outcomes with the histogram fetch failing. -/
def rBad : FetchResults :=
  { rGood with hist := .error "network failure" }

/-- Claim C6, witness: one failed fetch rejects the whole refresh; all
nine succeeding replaces all nine datasets. -/
theorem refreshAll_atomic_witness :
    (∃ e, refreshAll st0 rBad = .error e) ∧
    refreshAll st0 rGood = .ok { st0 with
      summary := some summary0, categorySpend := [], fraudTrend := [],
      table := ⟨0, []⟩, amountByGender := [], fraudByCategory := [],
      avgAmountByCategory := [], topMerchants := [],
      amountHistogram := [⟨10, some 2⟩] } := by
  constructor
  · exact (refreshAll_atomic st0 rBad).1
      (Or.inr (Or.inr (Or.inr (Or.inr (Or.inr (Or.inr (Or.inr (Or.inr
        ⟨"network failure", rfl⟩))))))))
  · exact (refreshAll_atomic st0 rGood).2 summary0 [] [] ⟨0, []⟩ [] [] [] []
      [⟨10, some 2⟩] rfl rfl rfl rfl rfl rfl rfl rfl rfl

/-- Claim C7: over any sequence of push-channel events, at most one
interval timer is ever created during a mount, and every created timer
is the 5000 ms full-refresh timer; once a channel error or close occurs
polling has begun exactly once (one armed timer), arming again is a
no-op, and no later event changes the state — in particular no
transition from Polling back to Live happens. -/
theorem polling_once (evs : List WsEvent) :
    (runEvents initPollState evs).timers.length ≤ 1 ∧
    (∀ t ∈ (runEvents initPollState evs).timers,
      t.period = 5000 ∧ t.action = TimerAction.refreshAllAction) ∧
    ((∃ e ∈ evs, e = WsEvent.error ∨ e = WsEvent.closed) →
      (runEvents initPollState evs).timers.length = 1 ∧
      (runEvents initPollState evs).pollRef.isSome = true ∧
      ∀ more, runEvents (runEvents initPollState evs) more =
        runEvents initPollState evs) := by
  have hinv : PollInv (runEvents initPollState evs) :=
    runEvents_inv evs initPollState initPollState_inv
  refine ⟨hinv.1, hinv.2.1, ?_⟩
  intro hmem
  have harm : (runEvents initPollState evs).pollRef.isSome = true :=
    runEvents_armed_of_mem evs initPollState hmem
  exact ⟨hinv.2.2.mp harm, harm, fun more => runEvents_of_armed harm more⟩

/-- Claim C7, witness: after an immediate channel error, exactly one
5000 ms refresh timer is armed and a further close event is a no-op. -/
theorem polling_once_witness :
    (runEvents initPollState [WsEvent.error]).timers.length = 1 ∧
    (runEvents initPollState [WsEvent.error]).pollRef.isSome = true ∧
    (∀ t ∈ (runEvents initPollState [WsEvent.error]).timers,
      t.period = 5000 ∧ t.action = TimerAction.refreshAllAction) ∧
    runEvents (runEvents initPollState [WsEvent.error]) [WsEvent.closed] =
      runEvents initPollState [WsEvent.error] := by
  have h := polling_once [WsEvent.error]
  have h3 := h.2.2 ⟨WsEvent.error, by simp, Or.inl rfl⟩
  exact ⟨h3.1, h3.2.1, h.2.1, h3.2.2 [WsEvent.closed]⟩

/-- Claim C8: with no file selected the upload handler returns before
issuing any request and the state is unchanged, and the upload control
is disabled. -/
theorem onUpload_no_file (st : DashState) (up : Except Err Unit)
    (r : FetchResults) (h : st.file = none) :
    onUpload st up r = (st, []) ∧ uploadDisabled st = true := by
  constructor
  · simp [onUpload, h]
  · simp [uploadDisabled, h]

/-- Claim C8, witness: on the mount-time state (no file chosen) the
upload handler is inert. -/
theorem onUpload_no_file_witness :
    st0.file = none ∧
    (onUpload st0 (.ok ()) rGood = (st0, []) ∧ uploadDisabled st0 = true) :=
  ⟨rfl, onUpload_no_file st0 (.ok ()) rGood rfl⟩

end Dashboard
